import Mathlib

/-!
# A verification model of the TaskMaster task-list application

This file embeds the core of the TaskMaster application — the
`TaskModel` data class (`taskmaster_view.js`, Model layer) and the
`TaskViewModel` business-logic class (`taskmaster_viewmodel.js`) — as
executable Lean definitions, and proves the specification's testable
properties about them.

JavaScript dynamic values that can flow through the untyped parts of the
program (notably tasks deserialized from an arbitrary `localStorage`
blob) are modelled by JSON values (`Json`) together with `undefined`
(`Option Json`, `none` being `undefined`).  A JS `Date` object is
modelled by its epoch-millisecond time value, `Option Int`, where `none`
is an Invalid Date (time value `NaN`).  Exceptions are modelled by
`Option` results (`none` = the operation threw).
-/

/-- A JSON value, as produced by `JSON.parse`.  Numbers are modelled as
integers (every number this program writes is an integer id; fractional
numbers never arise on the write path and their exact value is never
relevant on the read path). -/
inductive Json where
  | null : Json
  | jbool : Bool → Json
  | jnum : Int → Json
  | jstr : String → Json
  | jarr : List Json → Json
  | jobj : List (String × Json) → Json

mutual

/-- Decidable equality of JSON values (the automatic derivation does not
handle the nesting through `List`). -/
def Json.decEq : (a b : Json) → Decidable (a = b)
  | .null, .null => isTrue rfl
  | .jbool a, .jbool b =>
    if h : a = b then isTrue (by rw [h])
    else isFalse (fun he => h (Json.jbool.inj he))
  | .jnum a, .jnum b =>
    if h : a = b then isTrue (by rw [h])
    else isFalse (fun he => h (Json.jnum.inj he))
  | .jstr a, .jstr b =>
    if h : a = b then isTrue (by rw [h])
    else isFalse (fun he => h (Json.jstr.inj he))
  | .jarr xs, .jarr ys =>
    match Json.decEqList xs ys with
    | isTrue h => isTrue (by rw [h])
    | isFalse h => isFalse (fun he => h (Json.jarr.inj he))
  | .jobj fs, .jobj gs =>
    match Json.decEqObj fs gs with
    | isTrue h => isTrue (by rw [h])
    | isFalse h => isFalse (fun he => h (Json.jobj.inj he))
  | .null, .jbool _ => isFalse (fun h => Json.noConfusion h)
  | .null, .jnum _ => isFalse (fun h => Json.noConfusion h)
  | .null, .jstr _ => isFalse (fun h => Json.noConfusion h)
  | .null, .jarr _ => isFalse (fun h => Json.noConfusion h)
  | .null, .jobj _ => isFalse (fun h => Json.noConfusion h)
  | .jbool _, .null => isFalse (fun h => Json.noConfusion h)
  | .jbool _, .jnum _ => isFalse (fun h => Json.noConfusion h)
  | .jbool _, .jstr _ => isFalse (fun h => Json.noConfusion h)
  | .jbool _, .jarr _ => isFalse (fun h => Json.noConfusion h)
  | .jbool _, .jobj _ => isFalse (fun h => Json.noConfusion h)
  | .jnum _, .null => isFalse (fun h => Json.noConfusion h)
  | .jnum _, .jbool _ => isFalse (fun h => Json.noConfusion h)
  | .jnum _, .jstr _ => isFalse (fun h => Json.noConfusion h)
  | .jnum _, .jarr _ => isFalse (fun h => Json.noConfusion h)
  | .jnum _, .jobj _ => isFalse (fun h => Json.noConfusion h)
  | .jstr _, .null => isFalse (fun h => Json.noConfusion h)
  | .jstr _, .jbool _ => isFalse (fun h => Json.noConfusion h)
  | .jstr _, .jnum _ => isFalse (fun h => Json.noConfusion h)
  | .jstr _, .jarr _ => isFalse (fun h => Json.noConfusion h)
  | .jstr _, .jobj _ => isFalse (fun h => Json.noConfusion h)
  | .jarr _, .null => isFalse (fun h => Json.noConfusion h)
  | .jarr _, .jbool _ => isFalse (fun h => Json.noConfusion h)
  | .jarr _, .jnum _ => isFalse (fun h => Json.noConfusion h)
  | .jarr _, .jstr _ => isFalse (fun h => Json.noConfusion h)
  | .jarr _, .jobj _ => isFalse (fun h => Json.noConfusion h)
  | .jobj _, .null => isFalse (fun h => Json.noConfusion h)
  | .jobj _, .jbool _ => isFalse (fun h => Json.noConfusion h)
  | .jobj _, .jnum _ => isFalse (fun h => Json.noConfusion h)
  | .jobj _, .jstr _ => isFalse (fun h => Json.noConfusion h)
  | .jobj _, .jarr _ => isFalse (fun h => Json.noConfusion h)
termination_by structural a => a

/-- Decidable equality of JSON value lists. -/
def Json.decEqList : (a b : List Json) → Decidable (a = b)
  | [], [] => isTrue rfl
  | [], _ :: _ => isFalse (fun h => List.noConfusion h)
  | _ :: _, [] => isFalse (fun h => List.noConfusion h)
  | x :: xs, y :: ys =>
    match Json.decEq x y with
    | isTrue h1 =>
      match Json.decEqList xs ys with
      | isTrue h2 => isTrue (by rw [h1, h2])
      | isFalse h2 => isFalse (fun he => h2 (List.cons.inj he).2)
    | isFalse h1 => isFalse (fun he => h1 (List.cons.inj he).1)
termination_by structural a => a

/-- Decidable equality of JSON object field lists. -/
def Json.decEqObj : (a b : List (String × Json)) → Decidable (a = b)
  | [], [] => isTrue rfl
  | [], _ :: _ => isFalse (fun h => List.noConfusion h)
  | _ :: _, [] => isFalse (fun h => List.noConfusion h)
  | (k1, v1) :: xs, (k2, v2) :: ys =>
    if hk : k1 = k2 then
      match Json.decEq v1 v2 with
      | isTrue hv =>
        match Json.decEqObj xs ys with
        | isTrue h2 => isTrue (by rw [hk, hv, h2])
        | isFalse h2 => isFalse (fun he => h2 (List.cons.inj he).2)
      | isFalse hv =>
        isFalse (fun he => hv (congrArg Prod.snd (List.cons.inj he).1))
    else isFalse (fun he => hk (congrArg Prod.fst (List.cons.inj he).1))
termination_by structural a => a

end

instance : DecidableEq Json := Json.decEq

/-- A JavaScript value held in a field of a task object: either a JSON
value or `undefined` (`none`). -/
abbrev JsVal := Option Json

/-- JS truthiness of a field value (`Boolean(v)`): `undefined`, `null`,
`false`, `0` and `""` are falsy; everything else is truthy. -/
def truthy : JsVal → Bool
  | none => false
  | some Json.null => false
  | some (Json.jbool b) => b
  | some (Json.jnum n) => n != 0
  | some (Json.jstr s) => s != ""
  | some (Json.jarr _) => true
  | some (Json.jobj _) => true

/-- JS strict equality `v === id` where `id` is a number: true exactly
when `v` is the same number. -/
def jsStrictEqNum (v : JsVal) (id : Int) : Bool :=
  v == some (Json.jnum id)

/-- A character of the JavaScript `WhiteSpace`/`LineTerminator` set
removed by `String.prototype.trim` (the common members; exotic Unicode
space separators behave identically and are elided). -/
def jsIsWs (c : Char) : Bool :=
  c = ' ' || c = '\t' || c = '\n' || c = '\r' || c = '\x0b' || c = '\x0c' ||
  c = ' ' || c = '﻿'

/-- Drop leading whitespace characters. -/
def dropLeadWs : List Char → List Char
  | [] => []
  | c :: cs => if jsIsWs c then dropLeadWs cs else c :: cs

/-- Model of JS `String.prototype.trim`: drop leading and trailing
whitespace. -/
def jsTrim (s : String) : String :=
  ⟨(dropLeadWs (dropLeadWs s.data.reverse).reverse)⟩

/-!
## The JS `Date` built-ins used by `TaskModel`

`createdAt.toISOString()` and `new Date(isoString)` are modelled
faithfully on their ECMAScript semantics: a time value is valid iff its
magnitude is at most 8.64e15 ms; `toISOString` renders the proleptic
Gregorian UTC date-time `YYYY-MM-DDTHH:mm:ss.sssZ` (years outside
0..9999 use the expanded `±YYYYYY` form); `Date.parse` of a canonical
ISO string recovers the time value, clipping out-of-range results to
`NaN` (`none`).  Non-ISO strings parse implementation-defined in JS;
the model maps them to an Invalid Date, which is the behavior of the
strings that actually arise here.

The calendar arithmetic works on shifted, non-negative day numbers:
`n = epochDay + 100000000 + 719468 + 146097000` so that `n = 0` is
March 1 of shifted year 0, and shifted year `ysh = year + 400000`.
-/

/-- Shifted day number to (shifted year, month, day), proleptic
Gregorian calendar: split into a 400-year era, then century (`c`),
4-year block (`q`) and year (`yq`) within the era, then month and day
from the March-based day-of-year. -/
def civilFromDaysN (n : Nat) : Nat × Nat × Nat :=
  let era := n / 146097
  let doe := n % 146097
  let c := min (doe / 36524) 3
  let doc := doe - c * 36524
  let q := doc / 1461
  let doq := doc - q * 1461
  let yq := min (doq / 365) 3
  let doy := doq - yq * 365
  let mp := (5 * doy + 2) / 153
  let d := doy - (153 * mp + 2) / 5 + 1
  let m := if mp < 10 then mp + 3 else mp - 9
  let y := era * 400 + c * 100 + q * 4 + yq
  (if m ≤ 2 then y + 1 else y, m, d)

/-- (shifted year, month, day) back to the shifted day number; inverse
of `civilFromDaysN`. -/
def daysFromCivilN (y m d : Nat) : Nat :=
  let y' := if m ≤ 2 then y - 1 else y
  let era := y' / 400
  let yoe := y' % 400
  let c := yoe / 100
  let q := yoe % 100 / 4
  let yq := yoe % 4
  let mp := if 2 < m then m - 3 else m + 9
  let doy := (153 * mp + 2) / 5 + (d - 1)
  era * 146097 + c * 36524 + q * 1461 + yq * 365 + doy

/-- The decimal digit character for `d ≤ 9`. -/
def digChar : Nat → Char
  | 0 => '0' | 1 => '1' | 2 => '2' | 3 => '3' | 4 => '4'
  | 5 => '5' | 6 => '6' | 7 => '7' | 8 => '8' | _ => '9'

/-- Two-digit zero-padded decimal. -/
def pad2 (n : Nat) : List Char := [digChar (n / 10), digChar (n % 10)]

/-- Three-digit zero-padded decimal. -/
def pad3 (n : Nat) : List Char := digChar (n / 100) :: pad2 (n % 100)

/-- Four-digit zero-padded decimal. -/
def pad4 (n : Nat) : List Char := pad2 (n / 100) ++ pad2 (n % 100)

/-- Six-digit zero-padded decimal. -/
def pad6 (n : Nat) : List Char := pad3 (n / 1000) ++ pad3 (n % 1000)

/-- The year field of an ISO string: four digits for years 0..9999,
expanded signed six-digit form otherwise (`ysh` is the shifted year). -/
def yearChars (ysh : Nat) : List Char :=
  if 400000 ≤ ysh ∧ ysh ≤ 409999 then pad4 (ysh - 400000)
  else if ysh < 400000 then '-' :: pad6 (400000 - ysh)
  else '+' :: pad6 (ysh - 400000)

/-- The character list of the canonical ISO-8601 rendering of a valid
time value. -/
def toISOChars (ms : Int) : List Char :=
  let nsh := (ms + 8640000000000000).toNat
  let dayN := nsh / 86400000
  let tod := nsh % 86400000
  let cd := civilFromDaysN (dayN + 46816468)
  yearChars cd.1 ++ ('-' :: (pad2 cd.2.1 ++ ('-' :: (pad2 cd.2.2 ++
    ('T' :: (pad2 (tod / 3600000) ++ (':' :: (pad2 (tod % 3600000 / 60000) ++
    (':' :: (pad2 (tod % 60000 / 1000) ++ ('.' :: (pad3 (tod % 1000) ++
    ['Z']))))))))))))

/-- Model of `Date.prototype.toISOString`: `none` models the
`RangeError` thrown on an out-of-range time value (the only invalid
input reachable here, since Invalid Dates are modelled separately). -/
def toISOString (ms : Int) : Option String :=
  if -8640000000000000 ≤ ms ∧ ms ≤ 8640000000000000 then
    some ⟨toISOChars ms⟩
  else none

/-- The numeric value of a decimal digit character, `none` otherwise. -/
def digitVal (c : Char) : Option Nat :=
  if c = '0' then some 0 else if c = '1' then some 1
  else if c = '2' then some 2 else if c = '3' then some 3
  else if c = '4' then some 4 else if c = '5' then some 5
  else if c = '6' then some 6 else if c = '7' then some 7
  else if c = '8' then some 8 else if c = '9' then some 9 else none

/-- Parse exactly two decimal digits. -/
def parse2 : List Char → Option (Nat × List Char)
  | c1 :: c2 :: r =>
    match digitVal c1, digitVal c2 with
    | some a, some b => some (10 * a + b, r)
    | _, _ => none
  | _ => none

/-- Parse exactly three decimal digits. -/
def parse3 : List Char → Option (Nat × List Char)
  | c :: r =>
    match digitVal c, parse2 r with
    | some a, some (b, r2) => some (100 * a + b, r2)
    | _, _ => none
  | [] => none

/-- Parse exactly four decimal digits. -/
def parse4 (cs : List Char) : Option (Nat × List Char) :=
  match parse2 cs with
  | some (a, r) =>
    match parse2 r with
    | some (b, r2) => some (100 * a + b, r2)
    | none => none
  | none => none

/-- Parse exactly six decimal digits. -/
def parse6 (cs : List Char) : Option (Nat × List Char) :=
  match parse3 cs with
  | some (a, r) =>
    match parse3 r with
    | some (b, r2) => some (1000 * a + b, r2)
    | none => none
  | none => none

/-- Consume one expected literal character. -/
def expectCh (c : Char) : List Char → Option (List Char)
  | x :: r => if x = c then some r else none
  | [] => none

/-- Parse the year field: signed expanded six-digit form or plain
four-digit form. -/
def parseYear (cs : List Char) : Option (Int × List Char) :=
  match cs with
  | c :: r =>
    if c = '+' then
      match parse6 r with
      | some (y, r2) => some ((y : Int), r2)
      | none => none
    else if c = '-' then
      match parse6 r with
      | some (y, r2) => some (-(y : Int), r2)
      | none => none
    else
      match parse4 (c :: r) with
      | some (y, r2) => some ((y : Int), r2)
      | none => none
  | [] => none

/-- Parse the `-MM-DD` part: month, day, rest. -/
def parseMD (cs : List Char) : Option (Nat × Nat × List Char) :=
  (expectCh '-' cs).bind fun r2 =>
  (parse2 r2).bind fun p =>
  (expectCh '-' p.2).bind fun r4 =>
  (parse2 r4).bind fun q =>
  some (p.1, q.1, q.2)

/-- Parse the `THH:MM:SS.mmm` part: hour, minute, second, millisecond,
rest. -/
def parseTime (cs : List Char) : Option (Nat × Nat × Nat × Nat × List Char) :=
  (expectCh 'T' cs).bind fun r6 =>
  (parse2 r6).bind fun hh =>
  (expectCh ':' hh.2).bind fun r8 =>
  (parse2 r8).bind fun mi =>
  (expectCh ':' mi.2).bind fun r10 =>
  (parse2 r10).bind fun ss =>
  (expectCh '.' ss.2).bind fun r12 =>
  (parse3 r12).bind fun mmm =>
  some (hh.1, mi.1, ss.1, mmm.1, mmm.2)

/-- Final step of date parsing: with all fields read and the rest of
the input in `r14`, check the grammar bounds, recombine the time value
and clip it to the representable range. -/
def parseFinish (y : Int) (mo d hh mi ss mmm : Nat) (r14 : List Char) :
    Option Int :=
  if r14 = [] ∧ 1 ≤ mo ∧ mo ≤ 12 ∧ 1 ≤ d ∧ d ≤ 31 ∧ hh ≤ 23 ∧ mi ≤ 59 ∧
      ss ≤ 59 ∧ -400000 ≤ y then
    let ysh := (y + 400000).toNat
    let ms : Int :=
      ((daysFromCivilN ysh mo d : Int) - 146816468) * 86400000 +
        (hh * 3600000 + mi * 60000 + ss * 1000 + mmm : Nat)
    if -8640000000000000 ≤ ms ∧ ms ≤ 8640000000000000 then some ms else none
  else none

/-- Continuation after the time of day has been read. -/
def parseAfterTime (y : Int) (mo d : Nat)
    (t : Nat × Nat × Nat × Nat × List Char) : Option Int :=
  (expectCh 'Z' t.2.2.2.2).bind (parseFinish y mo d t.1 t.2.1 t.2.2.1 t.2.2.2.1)

/-- Continuation after the month and day have been read. -/
def parseAfterMD (y : Int) (md : Nat × Nat × List Char) : Option Int :=
  (parseTime md.2.2).bind (parseAfterTime y md.1 md.2.1)

/-- Continuation after the year has been read. -/
def parseAfterYear (yr : Int × List Char) : Option Int :=
  (parseMD yr.2).bind (parseAfterMD yr.1)

/-- Parse a canonical ISO-8601 UTC date-time character list to a time
value; `none` is `NaN` (invalid date).  Years below −400000 are far
outside the representable range and are rejected directly (JS reaches
the same `NaN` through the final range clip). -/
def parseDateChars (cs : List Char) : Option Int :=
  (parseYear cs).bind parseAfterYear

/-- Model of `Date.parse` / `new Date(string)` on the strings arising in
this program (canonical ISO strings; everything else is an Invalid
Date). -/
def parseDate (s : String) : Option Int := parseDateChars s.data

mutual

/-- JS `String(v)` conversion of a JSON value (used by `new Date(v)` on
non-string, non-number arguments). -/
def jsToString : Json → String
  | Json.null => "null"
  | Json.jbool b => if b then "true" else "false"
  | Json.jnum n => toString n
  | Json.jstr s => s
  | Json.jarr xs => jsArrJoin xs
  | Json.jobj _ => "[object Object]"
termination_by structural a => a

/-- JS `Array.prototype.toString`: comma-joined element strings, with
`null` rendered empty. -/
def jsArrJoin : List Json → String
  | [] => ""
  | [Json.null] => ""
  | [j] => jsToString j
  | Json.null :: js => "," ++ jsArrJoin js
  | j :: js => jsToString j ++ "," ++ jsArrJoin js
termination_by structural a => a

end

/-- Model of `new Date(v)` for a field value `v` taken from parsed JSON:
`undefined` gives an Invalid Date; `null` and booleans coerce to 0/1;
numbers are clipped to the valid range; strings (and objects/arrays, via
their string conversion) are parsed. -/
def jsNewDate : JsVal → Option Int
  | none => none
  | some Json.null => some 0
  | some (Json.jbool b) => some (if b then 1 else 0)
  | some (Json.jnum n) =>
    if -8640000000000000 ≤ n ∧ n ≤ 8640000000000000 then some n else none
  | some (Json.jstr s) => parseDate s
  | some (Json.jarr xs) => parseDate (jsArrJoin xs)
  | some (Json.jobj _) => parseDate "[object Object]"

/-!
## `TaskModel` (taskmaster_view.js, Model layer)
-/

/-- One task.  In a well-formed store `id` is a number, `text` a string,
`completed` a boolean and `createdAt` a valid `Date`; tasks
deserialized from a hand-corrupted blob can hold anything, which the
field types reflect. -/
structure TaskModel where
  id : JsVal
  text : JsVal
  completed : JsVal
  createdAt : Option Int
deriving DecidableEq

/-- Last-wins property lookup on a parsed JSON object, `none` being
`undefined`. -/
def jsLookup (fs : List (String × Json)) (k : String) : Option Json :=
  fs.foldl (fun acc p => if p.1 = k then some p.2 else acc) none

/-- The field list contributed to a stringified object by one property:
`JSON.stringify` omits properties whose value is `undefined`. -/
def optField (k : String) : JsVal → List (String × Json)
  | some v => [(k, v)]
  | none => []

/-- `TaskModel.prototype.toJSON` (taskmaster_view.js lines 335-342)
composed with the stringify/parse normalization applied by
`saveTasks`/`loadTasks`: the object `{id, text, completed, createdAt:
this.createdAt.toISOString()}` as the JSON value its stringification
parses back to.  `none` models the `RangeError` thrown by
`toISOString` on an Invalid Date. -/
def TaskModel.toJSON (t : TaskModel) : Option Json :=
  match t.createdAt with
  | none => none
  | some ms =>
    match toISOString ms with
    | none => none
    | some iso =>
      some (Json.jobj (optField "id" t.id ++ optField "text" t.text ++
        optField "completed" t.completed ++ [("createdAt", Json.jstr iso)]))

/-- `TaskModel.fromJSON` (taskmaster_view.js lines 351-358):
`new TaskModel(json.id, json.text, json.completed, new
Date(json.createdAt))`.  Property access on `null` throws (`none`);
on any non-object it yields `undefined`. -/
def TaskModel.fromJSON (j : Json) : Option TaskModel :=
  match j with
  | Json.null => none
  | Json.jobj fs =>
    some ⟨jsLookup fs "id", jsLookup fs "text", jsLookup fs "completed",
      jsNewDate (jsLookup fs "createdAt")⟩
  | _ => some ⟨none, none, none, jsNewDate none⟩

/-!
## `TaskViewModel` (taskmaster_viewmodel.js)

`localStorage.getItem('tasks')` is modelled as `Option Blob`: `none` is
a missing key, and a stored string is represented by the outcome of
`JSON.parse` on it (`malformed` = the parse throws; the empty string is
separate because `if (stored)` treats it as missing).
-/

/-- The persisted blob under the `tasks` key, represented by its
`JSON.parse` outcome. -/
inductive Blob where
  | emptyStr : Blob
  | malformed : Blob
  | parsed : Json → Blob
deriving DecidableEq

/-- The view model's own state: the task list and the current filter
string. -/
structure TaskViewModelState where
  tasks : List TaskModel
  currentFilter : String
deriving DecidableEq

/-- The view model state together with the `localStorage` contents it
reads and writes. -/
structure SysState where
  vm : TaskViewModelState
  storage : Option Blob
deriving DecidableEq

/-- `tasks.map(t => TaskModel.fromJSON(t))`: `none` if some element
throws (the whole result is then discarded by the catch). -/
def fromJSONList : List Json → Option (List TaskModel)
  | [] => some []
  | j :: js =>
    match TaskModel.fromJSON j, fromJSONList js with
    | some t, some ts => some (t :: ts)
    | _, _ => none

/-- `this.tasks.map(t => t.toJSON())`: `none` if some element throws. -/
def toJSONList : List TaskModel → Option (List Json)
  | [] => some []
  | t :: ts =>
    match t.toJSON, toJSONList ts with
    | some j, some js => some (j :: js)
    | _, _ => none

/-- `TaskViewModel.loadTasks` (lines 29-41): read the blob; absent or
empty leaves `tasks` as it was; a parse failure, a parsed non-array
(whose missing `.map` throws) or a throwing element conversion is
caught and resets `tasks` to `[]`; otherwise the converted list is
installed. -/
def TaskViewModel.loadTasks (storage : Option Blob) (tasks : List TaskModel) :
    List TaskModel :=
  match storage with
  | none => tasks
  | some Blob.emptyStr => tasks
  | some Blob.malformed => []
  | some (Blob.parsed (Json.jarr xs)) =>
    match fromJSONList xs with
    | some ts => ts
    | none => []
  | some (Blob.parsed _) => []

/-- `TaskViewModel.saveTasks` (lines 47-56): serialize all tasks and
write the blob; a throw inside the serialization (RangeError from
`toISOString`) is caught, leaving the stored blob unchanged.  (A
quota-exceeded failure of the write itself is likewise caught; the
model's write always succeeds, which is the only behavior the verified
properties depend on.) -/
def TaskViewModel.saveTasks (tasks : List TaskModel) (storage : Option Blob) :
    Option Blob :=
  match toJSONList tasks with
  | some js => some (Blob.parsed (Json.jarr js))
  | none => storage

/-- `TaskViewModel` constructor (lines 19-23): empty task list, filter
`'all'`, then `loadTasks()`. -/
def TaskViewModel.init (storage : Option Blob) : SysState :=
  ⟨⟨TaskViewModel.loadTasks storage [], "all"⟩, storage⟩

/-- `TaskViewModel.addTask` (lines 64-82).  `!text || !text.trim()` is,
for a string argument, exactly "the trimmed text is empty".  `now` is
the `Date.now()` read used for the id and `nowDate` the `new Date()`
read used for `createdAt`. -/
def TaskViewModel.addTask (text : String) (now nowDate : Int) (s : SysState) :
    Bool × SysState :=
  if jsTrim text = "" then
    (false, s)
  else
    let task : TaskModel :=
      ⟨some (Json.jnum now), some (Json.jstr (jsTrim text)),
        some (Json.jbool false), some nowDate⟩
    let tasks := task :: s.vm.tasks
    (true, ⟨⟨tasks, s.vm.currentFilter⟩, TaskViewModel.saveTasks tasks s.storage⟩)

/-- `this.tasks.find(t => t.id === id)` followed by the in-place flip of
`completed`: flip the first matching task, reporting whether one was
found. -/
def toggleFirst (id : Int) : List TaskModel → Bool × List TaskModel
  | [] => (false, [])
  | t :: ts =>
    if jsStrictEqNum t.id id then
      (true, { t with completed := some (Json.jbool (! truthy t.completed)) } :: ts)
    else
      let r := toggleFirst id ts
      (r.1, t :: r.2)

/-- The result of `task.completed = !task.completed` on one task. -/
def toggledTask (t : TaskModel) : TaskModel :=
  { t with completed := some (Json.jbool (! truthy t.completed)) }

/-- `TaskViewModel.toggleTask` (lines 90-102): flip the first task with
the given id and persist, returning `true`; if none matches, return
`false` with no mutation. -/
def TaskViewModel.toggleTask (id : Int) (s : SysState) : Bool × SysState :=
  let r := toggleFirst id s.vm.tasks
  if r.1 then
    (true, ⟨⟨r.2, s.vm.currentFilter⟩, TaskViewModel.saveTasks r.2 s.storage⟩)
  else
    (false, s)

/-- `TaskViewModel.deleteTask` (lines 109-119): replace `tasks` by the
filter dropping every task whose id strictly equals the argument;
persist only if the length shrank. -/
def TaskViewModel.deleteTask (id : Int) (s : SysState) : SysState :=
  let newTasks := s.vm.tasks.filter (fun t => ! jsStrictEqNum t.id id)
  if newTasks.length < s.vm.tasks.length then
    ⟨⟨newTasks, s.vm.currentFilter⟩, TaskViewModel.saveTasks newTasks s.storage⟩
  else
    ⟨⟨newTasks, s.vm.currentFilter⟩, s.storage⟩

/-- `TaskViewModel.getFilteredTasks` (lines 126-140).  The method reads
`this.tasks` and `this.currentFilter` and assigns nothing, so its
translation returns the filtered list together with the (unchanged)
state. -/
def TaskViewModel.getFilteredTasks (vm : TaskViewModelState) :
    List TaskModel × TaskViewModelState :=
  (match vm.currentFilter with
   | "active" => vm.tasks.filter (fun t => ! truthy t.completed)
   | "completed" => vm.tasks.filter (fun t => truthy t.completed)
   | _ => vm.tasks,
   vm)

/-- `TaskViewModel.setFilter` (lines 147-150): store the filter string
verbatim. -/
def TaskViewModel.setFilter (f : String) (vm : TaskViewModelState) :
    TaskViewModelState :=
  { vm with currentFilter := f }

/-- The result of `TaskViewModel.getStats`. -/
structure Stats where
  total : Nat
  completed : Nat
  active : Nat
deriving DecidableEq

/-- `TaskViewModel.getStats` (lines 157-163). -/
def TaskViewModel.getStats (vm : TaskViewModelState) : Stats :=
  ⟨vm.tasks.length,
   (vm.tasks.filter (fun t => truthy t.completed)).length,
   (vm.tasks.filter (fun t => ! truthy t.completed)).length⟩

/-- `TaskViewModel.clearAllTasks` (lines 169-173). -/
def TaskViewModel.clearAllTasks (s : SysState) : SysState :=
  ⟨⟨[], s.vm.currentFilter⟩, TaskViewModel.saveTasks [] s.storage⟩

/-!
## Operation sequences

The caller-facing mutating operations, for stating reachability
invariants.  `reload` re-runs `loadTasks()` against the current stored
blob. -/

/-- One caller-facing operation on the view model. -/
inductive Op where
  | add : String → Int → Int → Op
  | toggle : Int → Op
  | delete : Int → Op
  | setFilter : String → Op
  | clearAll : Op
  | reload : Op

/-- Apply one operation. -/
def applyOp (s : SysState) : Op → SysState
  | Op.add text now nowDate => (TaskViewModel.addTask text now nowDate s).2
  | Op.toggle id => (TaskViewModel.toggleTask id s).2
  | Op.delete id => TaskViewModel.deleteTask id s
  | Op.setFilter f => ⟨TaskViewModel.setFilter f s.vm, s.storage⟩
  | Op.clearAll => TaskViewModel.clearAllTasks s
  | Op.reload => ⟨⟨TaskViewModel.loadTasks s.storage s.vm.tasks, s.vm.currentFilter⟩, s.storage⟩

/-- Run a sequence of operations. -/
def runOps (s : SysState) : List Op → SysState
  | [] => s
  | op :: ops => runOps (applyOp s op) ops

/-!
## Well-formedness predicates and sample data

`TextOK`/`TasksOK`/`GoodElem`/`StorageOK`/`StateOK` state the text
invariant carried through every operation; `sampleTask`/`sampleState`
are concrete instances used to witness proved properties.
-/
def TextOK (t : TaskModel) : Prop :=
  ∃ s, t.text = some (Json.jstr s) ∧ jsTrim s ≠ ""

def TasksOK (l : List TaskModel) : Prop :=
  ∀ t ∈ l, TextOK t

def GoodElem (j : Json) : Prop :=
  ∃ fs, j = Json.jobj fs ∧
    ∃ s, jsLookup fs "text" = some (Json.jstr s) ∧ jsTrim s ≠ ""

def StorageOK (st : Option Blob) : Prop :=
  ∀ js, st = some (Blob.parsed (Json.jarr js)) → ∀ j ∈ js, GoodElem j

def StateOK (s : SysState) : Prop :=
  TasksOK s.vm.tasks ∧ StorageOK s.storage

def sampleTask : TaskModel :=
  ⟨some (Json.jnum 1), some (Json.jstr "a"), some (Json.jbool false), some 0⟩

def sampleState : SysState :=
  ⟨⟨[sampleTask], "all"⟩, none⟩

/-!
## Calendar lemmas
-/

/-- Division/remainder reconstruction of a year-of-era decomposition. -/
theorem yoePart (era c q yq y : Nat) (hc : c ≤ 3) (hq : q ≤ 24) (hyq : yq ≤ 3)
    (hy : y = era * 400 + c * 100 + q * 4 + yq) :
    y / 400 = era ∧ y % 400 / 100 = c ∧ y % 400 % 100 / 4 = q ∧ y % 400 % 4 = yq := by
  omega

/-- Inverting `civilFromDaysN` in the March–December branch. -/
theorem keyBranchA (n era doe c doc q doq yq doy mp d0 y : Nat)
    (hera : era = n / 146097) (hdoe : doe = n % 146097)
    (hc : c = min (doe / 36524) 3) (hdoc : doc = doe - c * 36524)
    (hq : q = doc / 1461) (hdoq : doq = doc - q * 1461)
    (hyq : yq = min (doq / 365) 3) (hdoy : doy = doq - yq * 365)
    (hmp : mp = (5 * doy + 2) / 153) (hd : d0 = doy - (153 * mp + 2) / 5 + 1)
    (hy : y = era * 400 + c * 100 + q * 4 + yq)
    (hlt : mp < 10) :
    daysFromCivilN y (mp + 3) d0 = n := by
  have f1 : 146097 * era + doe = n ∧ doe ≤ 146096 := by omega
  have f2 : c ≤ 3 ∧ c * 36524 ≤ doe := by omega
  have f3 : doc ≤ 36524 := by omega
  have f4 : q ≤ 24 ∧ 1461 * q ≤ doc := by omega
  have f5 : doq ≤ 1460 := by omega
  have f6 : yq ≤ 3 ∧ 365 * yq ≤ doq := by omega
  have f7 : doy ≤ 365 := by omega
  have f9 : (153 * mp + 2) / 5 + (d0 - 1) = doy := by omega
  have hyp := yoePart era c q yq y f2.1 f4.1 f6.1 hy
  simp only [daysFromCivilN]
  rw [if_neg (by omega : ¬ (mp + 3 ≤ 2)), if_pos (by omega : 2 < mp + 3),
    Nat.add_sub_cancel, hyp.1, hyp.2.1, hyp.2.2.1, hyp.2.2.2]
  omega

/-- Inverting `civilFromDaysN` in the January–February branch. -/
theorem keyBranchB (n era doe c doc q doq yq doy mp d0 y : Nat)
    (hera : era = n / 146097) (hdoe : doe = n % 146097)
    (hc : c = min (doe / 36524) 3) (hdoc : doc = doe - c * 36524)
    (hq : q = doc / 1461) (hdoq : doq = doc - q * 1461)
    (hyq : yq = min (doq / 365) 3) (hdoy : doy = doq - yq * 365)
    (hmp : mp = (5 * doy + 2) / 153) (hd : d0 = doy - (153 * mp + 2) / 5 + 1)
    (hy : y = era * 400 + c * 100 + q * 4 + yq)
    (hge : 10 ≤ mp) :
    daysFromCivilN (y + 1) (mp - 9) d0 = n := by
  have f1 : 146097 * era + doe = n ∧ doe ≤ 146096 := by omega
  have f2 : c ≤ 3 ∧ c * 36524 ≤ doe := by omega
  have f3 : doc ≤ 36524 := by omega
  have f4 : q ≤ 24 ∧ 1461 * q ≤ doc := by omega
  have f5 : doq ≤ 1460 := by omega
  have f6 : yq ≤ 3 ∧ 365 * yq ≤ doq := by omega
  have f7 : doy ≤ 365 := by omega
  have f8 : mp ≤ 11 := by omega
  have f9 : (153 * mp + 2) / 5 + (d0 - 1) = doy := by omega
  have hyp := yoePart era c q yq y f2.1 f4.1 f6.1 hy
  simp only [daysFromCivilN]
  rw [if_pos (by omega : mp - 9 ≤ 2), if_neg (by omega : ¬ (2 < mp - 9)),
    Nat.add_sub_cancel, Nat.sub_add_cancel (by omega : 9 ≤ mp),
    hyp.1, hyp.2.1, hyp.2.2.1, hyp.2.2.2]
  omega

/-- `daysFromCivilN` inverts `civilFromDaysN`. -/
theorem daysFromCivilN_civilFromDaysN (n : Nat) :
    daysFromCivilN (civilFromDaysN n).1 (civilFromDaysN n).2.1
      (civilFromDaysN n).2.2 = n := by
  simp only [civilFromDaysN]
  set era := n / 146097 with hera
  set doe := n % 146097 with hdoe
  set c := min (doe / 36524) 3 with hc
  set doc := doe - c * 36524 with hdoc
  set q := doc / 1461 with hq
  set doq := doc - q * 1461 with hdoq
  set yq := min (doq / 365) 3 with hyq
  set doy := doq - yq * 365 with hdoy
  set mp := (5 * doy + 2) / 153 with hmp
  set d0 := doy - (153 * mp + 2) / 5 + 1 with hd
  set y := era * 400 + c * 100 + q * 4 + yq with hy
  rcases Nat.lt_or_ge mp 10 with hlt | hge
  · rw [if_pos hlt, if_neg (by omega : ¬ (mp + 3 ≤ 2))]
    exact keyBranchA n era doe c doc q doq yq doy mp d0 y hera hdoe hc hdoc hq
      hdoq hyq hdoy hmp hd hy hlt
  · rw [if_neg (by omega : ¬ (mp < 10)), if_pos (by omega : mp - 9 ≤ 2)]
    exact keyBranchB n era doe c doc q doq yq doy mp d0 y hera hdoe hc hdoc hq
      hdoq hyq hdoy hmp hd hy hge

/-- Output ranges of `civilFromDaysN`. -/
theorem civilFromDaysN_bounds (n : Nat) :
    1 ≤ (civilFromDaysN n).2.1 ∧ (civilFromDaysN n).2.1 ≤ 12 ∧
    1 ≤ (civilFromDaysN n).2.2 ∧ (civilFromDaysN n).2.2 ≤ 31 ∧
    (civilFromDaysN n).1 ≤ 400 * (n / 146097) + 400 := by
  simp only [civilFromDaysN]
  set era := n / 146097 with hera
  set doe := n % 146097 with hdoe
  set c := min (doe / 36524) 3 with hc
  set doc := doe - c * 36524 with hdoc
  set q := doc / 1461 with hq
  set doq := doc - q * 1461 with hdoq
  set yq := min (doq / 365) 3 with hyq
  set doy := doq - yq * 365 with hdoy
  set mp := (5 * doy + 2) / 153 with hmp
  have f2 : c ≤ 3 ∧ c * 36524 ≤ doe := by omega
  have f3 : doc ≤ 36524 := by omega
  have f4 : q ≤ 24 ∧ 1461 * q ≤ doc := by omega
  have f5 : doq ≤ 1460 := by omega
  have f6 : yq ≤ 3 ∧ 365 * yq ≤ doq := by omega
  have f7 : doy ≤ 365 := by omega
  have f8 : mp ≤ 11 := by omega
  rcases Nat.lt_or_ge mp 10 with hlt | hge
  · rw [if_pos hlt]
    by_cases h2 : mp + 3 ≤ 2
    · omega
    · rw [if_neg h2]
      constructor
      · omega
      refine ⟨by omega, by omega, by omega, by omega⟩
  · rw [if_neg (by omega : ¬ (mp < 10))]
    rw [if_pos (by omega : mp - 9 ≤ 2)]
    refine ⟨by omega, by omega, by omega, by omega, by omega⟩

/-!
## Digit and fixed-width parsing lemmas
-/

/-- `digitVal` recovers the digit rendered by `digChar`. -/
theorem digitVal_digChar (d : Nat) (h : d ≤ 9) : digitVal (digChar d) = some d := by
  interval_cases d <;> rfl

/-- Digit characters are not a sign character. -/
theorem digChar_ne_sign (d : Nat) (h : d ≤ 9) :
    digChar d ≠ '+' ∧ digChar d ≠ '-' := by
  interval_cases d <;> exact ⟨by decide, by decide⟩

/-- `parse2` recovers a two-digit number from `pad2`. -/
theorem parse2_pad2 (a : Nat) (r : List Char) (h : a ≤ 99) :
    parse2 (pad2 a ++ r) = some (a, r) := by
  simp only [pad2, List.cons_append, List.nil_append, parse2,
    digitVal_digChar (a / 10) (by omega), digitVal_digChar (a % 10) (by omega)]
  congr 1
  congr 1
  omega

/-- `parse3` recovers a three-digit number from `pad3`. -/
theorem parse3_pad3 (a : Nat) (r : List Char) (h : a ≤ 999) :
    parse3 (pad3 a ++ r) = some (a, r) := by
  simp only [pad3, List.cons_append, parse3,
    digitVal_digChar (a / 100) (by omega), parse2_pad2 (a % 100) r (by omega)]
  congr 1
  congr 1
  omega

/-- `parse4` recovers a four-digit number from `pad4`. -/
theorem parse4_pad4 (a : Nat) (r : List Char) (h : a ≤ 9999) :
    parse4 (pad4 a ++ r) = some (a, r) := by
  simp only [pad4, List.append_assoc, parse4, parse2_pad2 (a / 100) _ (by omega),
    parse2_pad2 (a % 100) r (by omega)]
  congr 1
  congr 1
  omega

/-- `parse6` recovers a six-digit number from `pad6`. -/
theorem parse6_pad6 (a : Nat) (r : List Char) (h : a ≤ 999999) :
    parse6 (pad6 a ++ r) = some (a, r) := by
  simp only [pad6, List.append_assoc, parse6, parse3_pad3 (a / 1000) _ (by omega),
    parse3_pad3 (a % 1000) r (by omega)]
  congr 1
  congr 1
  omega

/-- `expectCh` consumes the expected character. -/
theorem expectCh_cons (c : Char) (r : List Char) : expectCh c (c :: r) = some r := by
  simp [expectCh]

/-- The four characters of `pad4`, spelled out. -/
theorem pad4_eq (a : Nat) :
    pad4 a = digChar (a / 100 / 10) :: digChar (a / 100 % 10) ::
      digChar (a % 100 / 10) :: digChar (a % 100 % 10) :: [] := by
  simp [pad4, pad2]

/-- `parseYear` recovers the (shifted) year rendered by `yearChars`. -/
theorem parseYear_yearChars (ysh : Nat) (r : List Char) (h : ysh ≤ 1399999) :
    parseYear (yearChars ysh ++ r) = some ((ysh : Int) - 400000, r) := by
  by_cases h1 : 400000 ≤ ysh ∧ ysh ≤ 409999
  · have h4 : ysh - 400000 ≤ 9999 := by omega
    have hsign := digChar_ne_sign ((ysh - 400000) / 100 / 10) (by omega)
    have hp4 := parse4_pad4 (ysh - 400000) r h4
    rw [pad4_eq] at hp4
    simp only [List.cons_append, List.nil_append] at hp4
    rw [yearChars, if_pos h1, pad4_eq, List.cons_append]
    rw [parseYear]
    rw [if_neg hsign.1, if_neg hsign.2]
    rw [show (parse4 (digChar ((ysh - 400000) / 100 / 10) ::
        ([digChar ((ysh - 400000) / 100 % 10), digChar ((ysh - 400000) % 100 / 10),
          digChar ((ysh - 400000) % 100 % 10)] ++ r))) = some (ysh - 400000, r)
      from hp4]
    have hcast : ((ysh - 400000 : Nat) : Int) = (ysh : Int) - 400000 := by omega
    show some (((ysh - 400000 : Nat) : Int), r) = some ((ysh : Int) - 400000, r)
    rw [hcast]
  · by_cases h2 : ysh < 400000
    · have hcast : -((400000 - ysh : Nat) : Int) = (ysh : Int) - 400000 := by omega
      rw [yearChars, if_neg h1, if_pos h2, List.cons_append]
      rw [parseYear]
      rw [if_neg (by decide : ¬ (('-' : Char) = '+')),
        if_pos (rfl : ('-' : Char) = '-'), parse6_pad6 (400000 - ysh) r (by omega)]
      show some (-((400000 - ysh : Nat) : Int), r) = some ((ysh : Int) - 400000, r)
      rw [hcast]
    · have hcast : ((ysh - 400000 : Nat) : Int) = (ysh : Int) - 400000 := by omega
      rw [yearChars, if_neg h1, if_neg h2, List.cons_append]
      rw [parseYear]
      rw [if_pos (rfl : ('+' : Char) = '+'), parse6_pad6 (ysh - 400000) r (by omega)]
      show some (((ysh - 400000 : Nat) : Int), r) = some ((ysh : Int) - 400000, r)
      rw [hcast]

/-- `parseMD` recovers the month and day rendered by the formatter. -/
theorem parseMD_pads (mo d : Nat) (r : List Char) (hmo : mo ≤ 99) (hd : d ≤ 99) :
    parseMD ('-' :: (pad2 mo ++ ('-' :: (pad2 d ++ r)))) = some (mo, d, r) := by
  rw [parseMD]
  simp only [expectCh_cons, parse2_pad2 mo _ hmo, Option.some_bind]
  simp only [expectCh_cons, parse2_pad2 d _ hd, Option.some_bind]

/-- `parseTime` recovers the time-of-day fields rendered by the
formatter. -/
theorem parseTime_pads (hh mi ss mmm : Nat) (r : List Char)
    (h1 : hh ≤ 99) (h2 : mi ≤ 99) (h3 : ss ≤ 99) (h4 : mmm ≤ 999) :
    parseTime ('T' :: (pad2 hh ++ (':' :: (pad2 mi ++ (':' :: (pad2 ss ++
      ('.' :: (pad3 mmm ++ r)))))))) = some (hh, mi, ss, mmm, r) := by
  rw [parseTime]
  simp only [expectCh_cons, parse2_pad2 hh _ h1, Option.some_bind]
  simp only [expectCh_cons, parse2_pad2 mi _ h2, Option.some_bind]
  simp only [expectCh_cons, parse2_pad2 ss _ h3, Option.some_bind]
  simp only [expectCh_cons, parse3_pad3 mmm _ h4, Option.some_bind]

/-- Unfolding `parseAfterYear` on a pair. -/
theorem parseAfterYear_mk (y : Int) (r : List Char) :
    parseAfterYear (y, r) = (parseMD r).bind (parseAfterMD y) := rfl

/-- Unfolding `parseAfterMD` on a triple. -/
theorem parseAfterMD_mk (y : Int) (mo d : Nat) (r : List Char) :
    parseAfterMD y (mo, d, r) = (parseTime r).bind (parseAfterTime y mo d) := rfl

/-- Unfolding `parseAfterTime` on a quintuple. -/
theorem parseAfterTime_mk (y : Int) (mo d hh mi ss mmm : Nat) (r : List Char) :
    parseAfterTime y mo d (hh, mi, ss, mmm, r) =
      (expectCh 'Z' r).bind (parseFinish y mo d hh mi ss mmm) := rfl

/-- `parseDateChars` inverts `toISOChars` on every valid time value:
parsing the canonical rendering gives back the exact millisecond time
value. -/
theorem parseDateChars_toISOChars (ms : Int)
    (hlo : -8640000000000000 ≤ ms) (hhi : ms ≤ 8640000000000000) :
    parseDateChars (toISOChars ms) = some ms := by
  simp only [toISOChars]
  set nsh := (ms + 8640000000000000).toNat with hnsh
  set dayN := nsh / 86400000 with hdayN
  set tod := nsh % 86400000 with htod
  set cd := civilFromDaysN (dayN + 46816468) with hcd
  have hround := daysFromCivilN_civilFromDaysN (dayN + 46816468)
  have hbounds := civilFromDaysN_bounds (dayN + 46816468)
  rw [← hcd] at hround hbounds
  have hnshb : nsh ≤ 17280000000000000 := by omega
  have hdayNb : dayN ≤ 200000000 := by omega
  have htodb : tod ≤ 86399999 := by omega
  have hyshb : cd.1 ≤ 1399999 := by
    have : (dayN + 46816468) / 146097 ≤ 1689 := by omega
    omega
  rw [parseDateChars]
  rw [parseYear_yearChars cd.1 _ hyshb, Option.some_bind, parseAfterYear_mk]
  rw [parseMD_pads cd.2.1 cd.2.2 _ (by omega) (by omega), Option.some_bind,
    parseAfterMD_mk]
  rw [parseTime_pads (tod / 3600000) (tod % 3600000 / 60000) (tod % 60000 / 1000)
    (tod % 1000) _ (by omega) (by omega) (by omega) (by omega), Option.some_bind,
    parseAfterTime_mk]
  rw [expectCh_cons, Option.some_bind]
  rw [parseFinish]
  rw [if_pos (show ([] : List Char) = [] ∧ _ from
    ⟨rfl, by omega, by omega, by omega, by omega, by omega, by omega, by omega,
      by omega⟩)]
  show (if -8640000000000000 ≤
        ((daysFromCivilN ((cd.1 : Int) - 400000 + 400000).toNat cd.2.1 cd.2.2 : Int)
            - 146816468) * 86400000 +
          ((tod / 3600000) * 3600000 + tod % 3600000 / 60000 * 60000 +
            tod % 60000 / 1000 * 1000 + tod % 1000 : Nat) ∧
        ((daysFromCivilN ((cd.1 : Int) - 400000 + 400000).toNat cd.2.1 cd.2.2 : Int)
            - 146816468) * 86400000 +
          ((tod / 3600000) * 3600000 + tod % 3600000 / 60000 * 60000 +
            tod % 60000 / 1000 * 1000 + tod % 1000 : Nat) ≤ 8640000000000000 then
      some (((daysFromCivilN ((cd.1 : Int) - 400000 + 400000).toNat cd.2.1 cd.2.2 : Int)
            - 146816468) * 86400000 +
          ((tod / 3600000) * 3600000 + tod % 3600000 / 60000 * 60000 +
            tod % 60000 / 1000 * 1000 + tod % 1000 : Nat))
    else none) = some ms
  have hysh : ((cd.1 : Int) - 400000 + 400000).toNat = cd.1 := by omega
  rw [hysh, hround]
  have hmsEq : (((dayN + 46816468 : Nat) : Int) - 146816468) * 86400000 +
      ((tod / 3600000) * 3600000 + tod % 3600000 / 60000 * 60000 +
        tod % 60000 / 1000 * 1000 + tod % 1000 : Nat) = ms := by
    have htd : (tod / 3600000) * 3600000 + tod % 3600000 / 60000 * 60000 +
        tod % 60000 / 1000 * 1000 + tod % 1000 = tod := by omega
    rw [htd]
    have hnd : 86400000 * dayN + tod = nsh := by omega
    have hms : (nsh : Int) = ms + 8640000000000000 := by omega
    push_cast
    omega
  rw [hmsEq, if_pos ⟨hlo, hhi⟩]

/-- Looking up each field of a serialized task object. -/
theorem jsLookup_taskFields (v1 v2 v3 v4 : Json) :
    jsLookup [("id", v1), ("text", v2), ("completed", v3), ("createdAt", v4)] "id" = some v1 ∧
    jsLookup [("id", v1), ("text", v2), ("completed", v3), ("createdAt", v4)] "text" = some v2 ∧
    jsLookup [("id", v1), ("text", v2), ("completed", v3), ("createdAt", v4)] "completed" = some v3 ∧
    jsLookup [("id", v1), ("text", v2), ("completed", v3), ("createdAt", v4)] "createdAt" = some v4 := by
  refine ⟨rfl, rfl, rfl, rfl⟩

/-- `toISOString` succeeds on every valid time value. -/
theorem toISOString_valid (ms : Int) (hlo : -8640000000000000 ≤ ms)
    (hhi : ms ≤ 8640000000000000) : toISOString ms = some ⟨toISOChars ms⟩ := by
  rw [toISOString, if_pos ⟨hlo, hhi⟩]

/-- `parseDate` inverts the ISO rendering (string level). -/
theorem parseDate_toISO (ms : Int) (hlo : -8640000000000000 ≤ ms)
    (hhi : ms ≤ 8640000000000000) :
    parseDate ⟨toISOChars ms⟩ = some ms := by
  rw [parseDate]
  exact parseDateChars_toISOChars ms hlo hhi

/-- Claim C3: for every task with numeric id, string text, boolean flag and a `createdAt` holding a valid Date time value (the millisecond timestamps a Date can carry), `fromJSON` after `toJSON` returns the task unchanged in all four fields, the timestamp at millisecond granularity. -/
theorem taskModel_serialize_roundTrip (i : Int) (txt : String) (b : Bool) (ms : Int)
    (hlo : -8640000000000000 ≤ ms) (hhi : ms ≤ 8640000000000000) :
    (TaskModel.toJSON ⟨some (Json.jnum i), some (Json.jstr txt),
        some (Json.jbool b), some ms⟩).bind TaskModel.fromJSON =
      some ⟨some (Json.jnum i), some (Json.jstr txt), some (Json.jbool b), some ms⟩ := by
  have h1 : TaskModel.toJSON ⟨some (Json.jnum i), some (Json.jstr txt),
      some (Json.jbool b), some ms⟩ =
      some (Json.jobj [("id", Json.jnum i), ("text", Json.jstr txt),
        ("completed", Json.jbool b), ("createdAt", Json.jstr ⟨toISOChars ms⟩)]) := by
    have hiso := toISOString_valid ms hlo hhi
    simp only [TaskModel.toJSON, hiso, optField, List.cons_append, List.nil_append]
  rw [h1, Option.some_bind]
  rw [TaskModel.fromJSON]
  have hl := jsLookup_taskFields (Json.jnum i) (Json.jstr txt) (Json.jbool b)
    (Json.jstr ⟨toISOChars ms⟩)
  rw [hl.1, hl.2.1, hl.2.2.1, hl.2.2.2]
  have hdate : jsNewDate (some (Json.jstr ⟨toISOChars ms⟩)) = some ms := by
    rw [jsNewDate]
    exact parseDate_toISO ms hlo hhi
  rw [hdate]

/-- Splitting a list length by a Boolean predicate. -/
theorem length_filter_not_add (l : List TaskModel) (p : TaskModel → Bool) :
    (l.filter p).length + (l.filter (fun t => ! p t)).length = l.length := by
  induction l with
  | nil => rfl
  | cons t ts ih =>
    cases hp : p t <;> simp [List.filter_cons, hp] <;> omega

/-- Claim C10: when no stored task has the given id, `deleteTask` leaves the persisted blob exactly as it was (indeed the whole state): the save call is guarded by a length check that fails. -/
theorem deleteTask_miss_spec (id : Int) (s : SysState)
    (h : ∀ t ∈ s.vm.tasks, jsStrictEqNum t.id id = false) :
    (TaskViewModel.deleteTask id s).storage = s.storage ∧
    TaskViewModel.deleteTask id s = s := by
  have hf : s.vm.tasks.filter (fun t => ! jsStrictEqNum t.id id) = s.vm.tasks := by
    apply List.filter_eq_self.mpr
    intro t ht
    rw [h t ht]
    rfl
  have heq : TaskViewModel.deleteTask id s = s := by
    simp only [TaskViewModel.deleteTask, hf]
    rw [if_neg (by omega : ¬ (s.vm.tasks.length < s.vm.tasks.length))]
  exact ⟨by rw [heq], heq⟩

/-- Claim C8: on a store whose completion flags are booleans, `getStats` returns the task count as `total`, the counts of completed and of uncompleted tasks, and `total = completed + active`. -/
theorem getStats_spec (vm : TaskViewModelState)
    (hWF : ∀ t ∈ vm.tasks, ∃ b, t.completed = some (Json.jbool b)) :
    (TaskViewModel.getStats vm).total = vm.tasks.length ∧
    (TaskViewModel.getStats vm).completed =
      (vm.tasks.filter (fun t => t.completed = some (Json.jbool true))).length ∧
    (TaskViewModel.getStats vm).active =
      (vm.tasks.filter (fun t => t.completed = some (Json.jbool false))).length ∧
    (TaskViewModel.getStats vm).total =
      (TaskViewModel.getStats vm).completed + (TaskViewModel.getStats vm).active := by
  have hc : vm.tasks.filter (fun t => truthy t.completed) =
      vm.tasks.filter (fun t => t.completed = some (Json.jbool true)) := by
    apply List.filter_congr
    intro t ht
    obtain ⟨b, hb⟩ := hWF t ht
    rw [hb]
    cases b <;> simp [truthy]
  have ha : vm.tasks.filter (fun t => ! truthy t.completed) =
      vm.tasks.filter (fun t => t.completed = some (Json.jbool false)) := by
    apply List.filter_congr
    intro t ht
    obtain ⟨b, hb⟩ := hWF t ht
    rw [hb]
    cases b <;> simp [truthy]
  refine ⟨rfl, ?_, ?_, ?_⟩
  · simp only [TaskViewModel.getStats, hc]
  · simp only [TaskViewModel.getStats, ha]
  · simp only [TaskViewModel.getStats]
    exact (length_filter_not_add vm.tasks (fun t => truthy t.completed)).symm

/-- Claim C4: on a store whose completion flags are booleans, `getFilteredTasks` returns under `'active'` exactly the uncompleted tasks in store order, under `'completed'` exactly the completed ones, and under any other filter string the full list; the state is not mutated. -/
theorem getFilteredTasks_spec (vm : TaskViewModelState)
    (hWF : ∀ t ∈ vm.tasks, ∃ b, t.completed = some (Json.jbool b)) :
    (vm.currentFilter = "active" →
      (TaskViewModel.getFilteredTasks vm).1 =
        vm.tasks.filter (fun t => t.completed = some (Json.jbool false))) ∧
    (vm.currentFilter = "completed" →
      (TaskViewModel.getFilteredTasks vm).1 =
        vm.tasks.filter (fun t => t.completed = some (Json.jbool true))) ∧
    (vm.currentFilter ≠ "active" → vm.currentFilter ≠ "completed" →
      (TaskViewModel.getFilteredTasks vm).1 = vm.tasks) ∧
    (TaskViewModel.getFilteredTasks vm).2 = vm := by
  have ha : vm.tasks.filter (fun t => ! truthy t.completed) =
      vm.tasks.filter (fun t => t.completed = some (Json.jbool false)) := by
    apply List.filter_congr
    intro t ht
    obtain ⟨b, hb⟩ := hWF t ht
    rw [hb]
    cases b <;> simp [truthy]
  have hc : vm.tasks.filter (fun t => truthy t.completed) =
      vm.tasks.filter (fun t => t.completed = some (Json.jbool true)) := by
    apply List.filter_congr
    intro t ht
    obtain ⟨b, hb⟩ := hWF t ht
    rw [hb]
    cases b <;> simp [truthy]
  refine ⟨?_, ?_, ?_, rfl⟩
  · intro hf
    simp only [TaskViewModel.getFilteredTasks, hf, ha]
  · intro hf
    simp only [TaskViewModel.getFilteredTasks, hf, hc]
  · intro h1 h2
    simp only [TaskViewModel.getFilteredTasks]

theorem toggleFirst_cons_pos (id : Int) (t : TaskModel) (ts : List TaskModel)
    (h : jsStrictEqNum t.id id = true) :
    toggleFirst id (t :: ts) = (true, toggledTask t :: ts) := by
  rw [toggleFirst, if_pos h]
  rfl

theorem toggleFirst_cons_neg (id : Int) (t : TaskModel) (ts : List TaskModel)
    (h : ¬ jsStrictEqNum t.id id = true) :
    toggleFirst id (t :: ts) = ((toggleFirst id ts).1, t :: (toggleFirst id ts).2) := by
  rw [toggleFirst, if_neg h]

theorem toggledTask_id (t : TaskModel) : (toggledTask t).id = t.id := rfl

theorem toggledTask_double (t : TaskModel) (b : Bool)
    (hb : t.completed = some (Json.jbool b)) : toggledTask (toggledTask t) = t := by
  have h1 : toggledTask (toggledTask t) = { t with completed := some (Json.jbool b) } := by
    unfold toggledTask
    rw [hb]
    cases b <;> rfl
  rw [h1, ← hb]

theorem toggleFirst_pair (id : Int) (l : List TaskModel)
    (hWF : ∀ t ∈ l, ∃ b, t.completed = some (Json.jbool b))
    (hm : ∃ t ∈ l, jsStrictEqNum t.id id = true) :
    (toggleFirst id l).1 = true ∧
    (toggleFirst id (toggleFirst id l).2).1 = true ∧
    (toggleFirst id (toggleFirst id l).2).2 = l := by
  induction l with
  | nil => obtain ⟨t, ht, _⟩ := hm; exact absurd ht (List.not_mem_nil t)
  | cons t ts ih =>
    by_cases h : jsStrictEqNum t.id id = true
    · have h2 : jsStrictEqNum (toggledTask t).id id = true := by
        rw [toggledTask_id]; exact h
      rw [toggleFirst_cons_pos id t ts h]
      rw [show ((true, toggledTask t :: ts)).2 = toggledTask t :: ts from rfl]
      rw [toggleFirst_cons_pos id _ ts h2]
      obtain ⟨b, hb⟩ := hWF t (List.mem_cons_self t ts)
      exact ⟨rfl, rfl, by
        rw [show ((true, toggledTask (toggledTask t) :: ts)).2 =
          toggledTask (toggledTask t) :: ts from rfl, toggledTask_double t b hb]⟩
    · have hm2 : ∃ u ∈ ts, jsStrictEqNum u.id id = true := by
        obtain ⟨u, hu, hequ⟩ := hm
        rcases List.mem_cons.mp hu with rfl | hu2
        · exact absurd hequ h
        · exact ⟨u, hu2, hequ⟩
      have ih2 := ih (fun u hu => hWF u (List.mem_cons_of_mem t hu)) hm2
      rw [toggleFirst_cons_neg id t ts h]
      rw [show (((toggleFirst id ts).1, t :: (toggleFirst id ts).2)).2 =
          t :: (toggleFirst id ts).2 from rfl]
      rw [toggleFirst_cons_neg id t _ h]
      exact ⟨ih2.1, ih2.2.1, by
        rw [show ((((toggleFirst id (toggleFirst id ts).2).1,
          t :: (toggleFirst id (toggleFirst id ts).2).2)).2) =
          t :: (toggleFirst id (toggleFirst id ts).2).2 from rfl, ih2.2.2]⟩

/-- Claim C7: on a store whose completion flags are booleans and which contains a task with the given id, calling `toggleTask` twice returns `true` both times and restores the task list exactly to its original value. -/
theorem toggleTask_found_twice (id : Int) (s : SysState)
    (hWF : ∀ t ∈ s.vm.tasks, ∃ b, t.completed = some (Json.jbool b))
    (hm : ∃ t ∈ s.vm.tasks, jsStrictEqNum t.id id = true) :
    (TaskViewModel.toggleTask id s).1 = true ∧
    (TaskViewModel.toggleTask id (TaskViewModel.toggleTask id s).2).1 = true ∧
    (TaskViewModel.toggleTask id
      (TaskViewModel.toggleTask id s).2).2.vm.tasks = s.vm.tasks := by
  have hp := toggleFirst_pair id s.vm.tasks hWF hm
  have e1 : TaskViewModel.toggleTask id s =
      (true, ⟨⟨(toggleFirst id s.vm.tasks).2, s.vm.currentFilter⟩,
        TaskViewModel.saveTasks (toggleFirst id s.vm.tasks).2 s.storage⟩) := by
    rw [TaskViewModel.toggleTask]
    simp only [hp.1, if_true]
  rw [e1]
  have e2 : TaskViewModel.toggleTask id
      (⟨⟨(toggleFirst id s.vm.tasks).2, s.vm.currentFilter⟩,
        TaskViewModel.saveTasks (toggleFirst id s.vm.tasks).2 s.storage⟩ : SysState) =
      (true, ⟨⟨(toggleFirst id (toggleFirst id s.vm.tasks).2).2, s.vm.currentFilter⟩,
        TaskViewModel.saveTasks (toggleFirst id (toggleFirst id s.vm.tasks).2).2
          (TaskViewModel.saveTasks (toggleFirst id s.vm.tasks).2 s.storage)⟩) := by
    rw [TaskViewModel.toggleTask]
    simp only [hp.2.1, if_true]
  rw [show ((true, (⟨⟨(toggleFirst id s.vm.tasks).2, s.vm.currentFilter⟩,
      TaskViewModel.saveTasks (toggleFirst id s.vm.tasks).2 s.storage⟩ : SysState))).2 =
      (⟨⟨(toggleFirst id s.vm.tasks).2, s.vm.currentFilter⟩,
      TaskViewModel.saveTasks (toggleFirst id s.vm.tasks).2 s.storage⟩ : SysState)
    from rfl, e2]
  exact ⟨rfl, rfl, hp.2.2⟩

theorem jsStrictEqNum_iff (v : JsVal) (id : Int) :
    jsStrictEqNum v id = true ↔ v = some (Json.jnum id) := by
  rw [jsStrictEqNum]
  exact beq_iff_eq

theorem deleteTask_tasks (id : Int) (s : SysState) :
    (TaskViewModel.deleteTask id s).vm.tasks =
      s.vm.tasks.filter (fun t => ! jsStrictEqNum t.id id) := by
  rw [TaskViewModel.deleteTask]
  split <;> rfl

theorem filter_unique_split (l : List TaskModel) (id : Int)
    (hnd : (l.map TaskModel.id).Nodup)
    (hm : ∃ t ∈ l, jsStrictEqNum t.id id = true) :
    ∃ l1 t l2, l = l1 ++ t :: l2 ∧ jsStrictEqNum t.id id = true ∧
      (∀ u ∈ l1, jsStrictEqNum u.id id = false) ∧
      (∀ u ∈ l2, jsStrictEqNum u.id id = false) ∧
      l.filter (fun u => ! jsStrictEqNum u.id id) = l1 ++ l2 := by
  induction l with
  | nil => obtain ⟨t, ht, _⟩ := hm; exact absurd ht (List.not_mem_nil t)
  | cons t ts ih =>
    rw [List.map_cons, List.nodup_cons] at hnd
    by_cases h : jsStrictEqNum t.id id = true
    · have hts : ∀ u ∈ ts, jsStrictEqNum u.id id = false := by
        intro u hu
        by_contra hc
        have hut : u.id = some (Json.jnum id) :=
          (jsStrictEqNum_iff u.id id).mp (by simpa using hc)
        have htt : t.id = some (Json.jnum id) := (jsStrictEqNum_iff t.id id).mp h
        exact hnd.1 (by rw [htt, ← hut]; exact List.mem_map_of_mem TaskModel.id hu)
      refine ⟨[], t, ts, rfl, h, fun u hu => absurd hu (List.not_mem_nil u), hts, ?_⟩
      rw [List.filter_cons_of_neg (by rw [h]; decide)]
      rw [List.nil_append]
      exact List.filter_eq_self.mpr (fun u hu => by rw [hts u hu]; rfl)
    · have hf : jsStrictEqNum t.id id = false := by simpa using h
      have hm2 : ∃ u ∈ ts, jsStrictEqNum u.id id = true := by
        obtain ⟨u, hu, hequ⟩ := hm
        rcases List.mem_cons.mp hu with rfl | hu2
        · exact absurd hequ h
        · exact ⟨u, hu2, hequ⟩
      obtain ⟨l1, u, l2, heq, hequ, hl1, hl2, hfil⟩ := ih hnd.2 hm2
      refine ⟨t :: l1, u, l2, by rw [heq]; rfl, hequ, ?_, hl2, ?_⟩
      · intro v hv
        rcases List.mem_cons.mp hv with rfl | hv2
        · exact hf
        · exact hl1 v hv2
      · rw [List.filter_cons_of_pos (by rw [hf]; rfl), hfil]
        rfl

/-- Claim C2 (amended): when the stored ids are pairwise distinct, `deleteTask` on a present id removes exactly that task, preserving the order of the remaining tasks and shrinking the length by exactly 1; on an absent id it leaves `tasks` unchanged. Unamended the claim fails: with duplicated ids the filter removes every match (see the counterexample). -/
theorem deleteTask_unique_spec (id : Int) (s : SysState)
    (hnd : (s.vm.tasks.map TaskModel.id).Nodup) :
    ((∃ t ∈ s.vm.tasks, jsStrictEqNum t.id id = true) →
      ∃ l1 t l2, s.vm.tasks = l1 ++ t :: l2 ∧ jsStrictEqNum t.id id = true ∧
        (TaskViewModel.deleteTask id s).vm.tasks = l1 ++ l2 ∧
        (TaskViewModel.deleteTask id s).vm.tasks.length + 1 = s.vm.tasks.length) ∧
    ((∀ t ∈ s.vm.tasks, jsStrictEqNum t.id id = false) →
      (TaskViewModel.deleteTask id s).vm.tasks = s.vm.tasks) := by
  constructor
  · intro hm
    obtain ⟨l1, t, l2, heq, hequ, hl1, hl2, hfil⟩ := filter_unique_split s.vm.tasks id hnd hm
    refine ⟨l1, t, l2, heq, hequ, ?_, ?_⟩
    · rw [deleteTask_tasks, hfil]
    · rw [deleteTask_tasks, hfil, heq]
      simp only [List.length_append, List.length_cons]
      omega
  · intro hmiss
    rw [deleteTask_tasks]
    exact List.filter_eq_self.mpr (fun u hu => by rw [hmiss u hu]; rfl)

/-- Counterexample to C2 as stated: two adds within the same millisecond produce duplicate ids, and `deleteTask` then removes both tasks, not exactly one. -/
theorem deleteTask_dup_cex :
    (runOps (TaskViewModel.init none) [Op.add "a" 1 1, Op.add "b" 1 1]).vm.tasks.length = 2 ∧
    (∃ t ∈ (runOps (TaskViewModel.init none) [Op.add "a" 1 1, Op.add "b" 1 1]).vm.tasks,
      jsStrictEqNum t.id 1 = true) ∧
    (TaskViewModel.deleteTask 1 (runOps (TaskViewModel.init none)
      [Op.add "a" 1 1, Op.add "b" 1 1])).vm.tasks.length = 0 := by
  decide

/-- Counterexample to C5 as stated: the parsed array `[5]` is not an array of task records, yet `loadTasks` installs one junk task instead of resetting to the empty list. -/
theorem loadTasks_junk_cex :
    (TaskViewModel.init (some (Blob.parsed (Json.jarr [Json.jnum 5])))).vm.tasks =
      [⟨none, none, none, none⟩] ∧
    (TaskViewModel.init (some (Blob.parsed (Json.jarr [Json.jnum 5])))).vm.tasks ≠ [] := by
  decide

/-- Claim C5 (amended): a missing key, the empty string, a string rejected by the JSON parser, and a parsed value that is not an array all leave `tasks` empty after construction, the try/catch letting no exception escape. Unamended the claim fails: a parsed array whose elements are not task records is installed element-wise (see the counterexample). -/
theorem loadTasks_recovery_spec (b : Option Blob)
    (h : b = none ∨ b = some Blob.emptyStr ∨ b = some Blob.malformed ∨
         ∃ j, b = some (Blob.parsed j) ∧ ∀ xs, j ≠ Json.jarr xs) :
    (TaskViewModel.init b).vm.tasks = [] := by
  rcases h with rfl | rfl | rfl | ⟨j, rfl, hj⟩
  · rfl
  · rfl
  · rfl
  · cases j with
    | null => rfl
    | jbool x => rfl
    | jnum x => rfl
    | jstr x => rfl
    | jarr xs => exact absurd rfl (hj xs)
    | jobj fs => rfl

/-- Counterexample to C6 as stated: loading a hand-written blob whose single record has an empty `text` yields a stored task whose text trims to the empty string. -/
theorem tasks_text_cex :
    (TaskViewModel.init (some (Blob.parsed (Json.jarr
        [Json.jobj [("text", Json.jstr "")]])))).vm.tasks =
      [⟨none, some (Json.jstr ""), none, none⟩] ∧ jsTrim "" = "" := by
  decide

theorem dropLeadWs_split (l : List Char) :
    ∃ p, l = p ++ dropLeadWs l ∧ ∀ c ∈ p, jsIsWs c = true := by
  induction l with
  | nil => exact ⟨[], rfl, fun c hc => absurd hc (List.not_mem_nil c)⟩
  | cons c cs ih =>
    by_cases h : jsIsWs c = true
    · obtain ⟨p, hp, hw⟩ := ih
      refine ⟨c :: p, ?_, ?_⟩
      · simp only [dropLeadWs, if_pos h, List.cons_append]
        rw [← hp]
      · intro d hd
        rcases List.mem_cons.mp hd with rfl | hd2
        · exact h
        · exact hw d hd2
    · refine ⟨[], ?_, fun d hd => absurd hd (List.not_mem_nil d)⟩
      simp only [dropLeadWs, if_neg h, List.nil_append]

theorem dropLeadWs_head (l : List Char) :
    dropLeadWs l = [] ∨ ∃ c cs, dropLeadWs l = c :: cs ∧ jsIsWs c = false := by
  induction l with
  | nil => exact Or.inl rfl
  | cons c cs ih =>
    by_cases h : jsIsWs c = true
    · simpa [dropLeadWs, h] using ih
    · exact Or.inr ⟨c, cs, by simp [dropLeadWs, h], by simpa using h⟩

theorem dropLeadWs_of_head (l : List Char)
    (h : l = [] ∨ ∃ c cs, l = c :: cs ∧ jsIsWs c = false) :
    dropLeadWs l = l := by
  rcases h with rfl | ⟨c, cs, rfl, hc⟩
  · rfl
  · simp [dropLeadWs, hc]

theorem trim_core_idem (l : List Char) :
    dropLeadWs (dropLeadWs
      (dropLeadWs (dropLeadWs l.reverse).reverse).reverse).reverse =
    dropLeadWs (dropLeadWs l.reverse).reverse := by
  rcases dropLeadWs_head (dropLeadWs l.reverse).reverse with h0 | ⟨c, cs, hcons, hc⟩
  · rw [h0]
    rfl
  · have hA : dropLeadWs (dropLeadWs (dropLeadWs l.reverse).reverse).reverse =
        (dropLeadWs (dropLeadWs l.reverse).reverse).reverse := by
      rcases dropLeadWs_head l.reverse with hr0 | ⟨d, ds, hdcons, hd⟩
      · rw [hr0] at hcons
        exact absurd hcons (by simp [dropLeadWs])
      · obtain ⟨p, hp, hw⟩ := dropLeadWs_split (dropLeadWs l.reverse).reverse
        have hrr : dropLeadWs l.reverse =
            (dropLeadWs (dropLeadWs l.reverse).reverse).reverse ++ p.reverse := by
          have h2 := congrArg List.reverse hp
          simpa using h2
        have hne : (dropLeadWs (dropLeadWs l.reverse).reverse).reverse ≠
            ([] : List Char) := by
          rw [hcons]
          simp
        cases htr : (dropLeadWs (dropLeadWs l.reverse).reverse).reverse with
        | nil => exact absurd htr hne
        | cons e es =>
          rw [htr] at hrr
          rw [hdcons, List.cons_append] at hrr
          have hed : d = e := ((List.cons.injEq d ds e (es ++ p.reverse)).mp hrr).1
          apply dropLeadWs_of_head
          exact Or.inr ⟨e, es, rfl, by rw [← hed]; exact hd⟩
    rw [hA, List.reverse_reverse]
    exact dropLeadWs_of_head _ (Or.inr ⟨c, cs, hcons, hc⟩)

theorem jsTrim_idem (s : String) : jsTrim (jsTrim s) = jsTrim s := by
  unfold jsTrim
  exact congrArg String.mk (trim_core_idem s.data)


theorem toJSON_goodElem (t : TaskModel) (j : Json)
    (ht : TextOK t) (hj : t.toJSON = some j) : GoodElem j := by
  obtain ⟨s, hs, hne⟩ := ht
  cases hcd : t.createdAt with
  | none =>
    simp only [TaskModel.toJSON, hcd] at hj
    exact Option.noConfusion hj
  | some ms =>
    cases hiso : toISOString ms with
    | none =>
      simp only [TaskModel.toJSON, hcd, hiso] at hj
      exact Option.noConfusion hj
    | some iso =>
      simp only [TaskModel.toJSON, hcd, hiso] at hj
      have hjj := Option.some.inj hj
      refine ⟨_, hjj.symm, s, ?_, hne⟩
      rw [hs]
      cases htid : t.id <;> cases hcomp : t.completed <;> rfl

theorem toJSONList_good (l : List TaskModel) (js : List Json)
    (hok : TasksOK l) (h : toJSONList l = some js) : ∀ j ∈ js, GoodElem j := by
  induction l generalizing js with
  | nil =>
    have hnil : ([] : List Json) = js := Option.some.inj h
    subst hnil
    intro j hj
    exact absurd hj (List.not_mem_nil j)
  | cons t ts ih =>
    rw [toJSONList] at h
    cases hjt : t.toJSON with
    | none =>
      rw [hjt] at h
      exact Option.noConfusion h
    | some j0 =>
      cases hts : toJSONList ts with
      | none =>
        rw [hjt, hts] at h
        exact Option.noConfusion h
      | some js0 =>
        rw [hjt, hts] at h
        have hcast : j0 :: js0 = js := Option.some.inj h
        subst hcast
        intro j hj
        rcases List.mem_cons.mp hj with rfl | hj2
        · exact toJSON_goodElem t j (hok t (List.mem_cons_self t ts)) hjt
        · exact ih js0 (fun u hu => hok u (List.mem_cons_of_mem t hu)) hts j hj2

theorem saveTasks_ok (l : List TaskModel) (st : Option Blob)
    (hl : TasksOK l) (hst : StorageOK st) :
    StorageOK (TaskViewModel.saveTasks l st) := by
  intro js hjs j hj
  rw [TaskViewModel.saveTasks] at hjs
  cases hjl : toJSONList l with
  | none =>
    rw [hjl] at hjs
    exact hst js hjs j hj
  | some js0 =>
    rw [hjl] at hjs
    have h1 : Blob.parsed (Json.jarr js0) = Blob.parsed (Json.jarr js) :=
      Option.some.inj hjs
    injection h1 with h2
    injection h2 with h3
    subst h3
    exact toJSONList_good l js0 hl hjl j hj

theorem fromJSON_good (j : Json) (t : TaskModel)
    (hg : GoodElem j) (h : TaskModel.fromJSON j = some t) : TextOK t := by
  obtain ⟨fs, rfl, s, hlook, hne⟩ := hg
  have ht := Option.some.inj h
  exact ⟨s, by rw [← ht]; exact hlook, hne⟩

theorem fromJSONList_good (xs : List Json) (ts : List TaskModel)
    (hg : ∀ j ∈ xs, GoodElem j) (h : fromJSONList xs = some ts) : TasksOK ts := by
  induction xs generalizing ts with
  | nil =>
    have hnil : ([] : List TaskModel) = ts := Option.some.inj h
    subst hnil
    intro t ht
    exact absurd ht (List.not_mem_nil t)
  | cons j js ih =>
    rw [fromJSONList] at h
    cases hjt : TaskModel.fromJSON j with
    | none =>
      rw [hjt] at h
      exact Option.noConfusion h
    | some t0 =>
      cases hts : fromJSONList js with
      | none =>
        rw [hjt, hts] at h
        exact Option.noConfusion h
      | some ts0 =>
        rw [hjt, hts] at h
        have hcast : t0 :: ts0 = ts := Option.some.inj h
        subst hcast
        intro t ht
        rcases List.mem_cons.mp ht with rfl | ht2
        · exact fromJSON_good j t (hg j (List.mem_cons_self j js)) hjt
        · exact ih ts0 (fun u hu => hg u (List.mem_cons_of_mem j hu)) hts t ht2

theorem loadTasks_ok (st : Option Blob) (tasks : List TaskModel)
    (hst : StorageOK st) (htk : TasksOK tasks) :
    TasksOK (TaskViewModel.loadTasks st tasks) := by
  cases st with
  | none => exact htk
  | some b =>
    cases b with
    | emptyStr => exact htk
    | malformed => intro t ht; exact absurd ht (List.not_mem_nil t)
    | parsed j =>
      cases j with
      | null => intro t ht; exact absurd ht (List.not_mem_nil t)
      | jbool x => intro t ht; exact absurd ht (List.not_mem_nil t)
      | jnum x => intro t ht; exact absurd ht (List.not_mem_nil t)
      | jstr x => intro t ht; exact absurd ht (List.not_mem_nil t)
      | jobj fs => intro t ht; exact absurd ht (List.not_mem_nil t)
      | jarr xs =>
        simp only [TaskViewModel.loadTasks]
        cases hfl : fromJSONList xs with
        | none => intro t ht; exact absurd ht (List.not_mem_nil t)
        | some ts => exact fromJSONList_good xs ts (hst xs rfl) hfl

theorem toggleFirst_text (id : Int) (l : List TaskModel) (h : TasksOK l) :
    TasksOK (toggleFirst id l).2 := by
  induction l with
  | nil => exact h
  | cons t ts ih =>
    by_cases hc : jsStrictEqNum t.id id = true
    · rw [toggleFirst_cons_pos id t ts hc]
      intro u hu
      rcases List.mem_cons.mp hu with rfl | hu2
      · obtain ⟨s, hs, hne⟩ := h t (List.mem_cons_self t ts)
        exact ⟨s, hs, hne⟩
      · exact h u (List.mem_cons_of_mem t hu2)
    · rw [toggleFirst_cons_neg id t ts hc]
      intro u hu
      rcases List.mem_cons.mp hu with rfl | hu2
      · exact h u (List.mem_cons_self u ts)
      · exact ih (fun v hv => h v (List.mem_cons_of_mem t hv)) u hu2

theorem addTask_state_ok (text : String) (now nowDate : Int) (s : SysState)
    (h : StateOK s) : StateOK (TaskViewModel.addTask text now nowDate s).2 := by
  by_cases he : jsTrim text = ""
  · rw [TaskViewModel.addTask, if_pos he]
    exact h
  · have hnew : TasksOK ((⟨some (Json.jnum now), some (Json.jstr (jsTrim text)),
        some (Json.jbool false), some nowDate⟩ : TaskModel) :: s.vm.tasks) := by
      intro u hu
      rcases List.mem_cons.mp hu with rfl | hu2
      · exact ⟨jsTrim text, rfl, by rw [jsTrim_idem]; exact he⟩
      · exact h.1 u hu2
    rw [TaskViewModel.addTask, if_neg he]
    exact ⟨hnew, saveTasks_ok _ s.storage hnew h.2⟩

theorem toggleTask_state_ok (id : Int) (s : SysState) (h : StateOK s) :
    StateOK (TaskViewModel.toggleTask id s).2 := by
  have htog : TasksOK (toggleFirst id s.vm.tasks).2 := toggleFirst_text id s.vm.tasks h.1
  simp only [TaskViewModel.toggleTask]
  split
  · exact ⟨htog, saveTasks_ok _ s.storage htog h.2⟩
  · exact h

theorem deleteTask_state_ok (id : Int) (s : SysState) (h : StateOK s) :
    StateOK (TaskViewModel.deleteTask id s) := by
  have hfil : TasksOK (s.vm.tasks.filter (fun t => ! jsStrictEqNum t.id id)) :=
    fun u hu => h.1 u (List.mem_of_mem_filter hu)
  simp only [TaskViewModel.deleteTask]
  split
  · exact ⟨hfil, saveTasks_ok _ s.storage hfil h.2⟩
  · exact ⟨hfil, h.2⟩

theorem clearAll_state_ok (s : SysState) (h : StateOK s) :
    StateOK (TaskViewModel.clearAllTasks s) := by
  have hnil : TasksOK ([] : List TaskModel) := fun t ht => absurd ht (List.not_mem_nil t)
  exact ⟨hnil, saveTasks_ok [] s.storage hnil h.2⟩

theorem applyOp_ok (s : SysState) (op : Op) (h : StateOK s) :
    StateOK (applyOp s op) := by
  cases op with
  | add text now nowDate => exact addTask_state_ok text now nowDate s h
  | toggle id => exact toggleTask_state_ok id s h
  | delete id => exact deleteTask_state_ok id s h
  | setFilter f => exact ⟨h.1, h.2⟩
  | clearAll => exact clearAll_state_ok s h
  | reload => exact ⟨loadTasks_ok s.storage s.vm.tasks h.2 h.1, h.2⟩

theorem runOps_ok (ops : List Op) (s : SysState) (h : StateOK s) :
    StateOK (runOps s ops) := by
  induction ops generalizing s with
  | nil => exact h
  | cons op rest ih => exact ih (applyOp s op) (applyOp_ok s op h)

theorem init_none_ok : StateOK (TaskViewModel.init none) :=
  ⟨fun t ht => absurd ht (List.not_mem_nil t), fun _js hjs => Option.noConfusion hjs⟩

/-- Claim C6 (amended): every state reachable by caller-facing operations (including reloads from the blob the store itself persisted) from an initial state with no stored blob holds only tasks whose text trims to a non-empty string. Unamended the claim fails for a load from an arbitrary hand-written blob (see the counterexample). -/
theorem tasks_text_invariant (ops : List Op) (t : TaskModel)
    (ht : t ∈ (runOps (TaskViewModel.init none) ops).vm.tasks) :
    ∃ s, t.text = some (Json.jstr s) ∧ jsTrim s ≠ "" :=
  (runOps_ok ops (TaskViewModel.init none) init_none_ok).1 t ht


theorem deleteTask_unique_witness :
    (List.map TaskModel.id sampleState.vm.tasks).Nodup ∧
    (((∃ t ∈ sampleState.vm.tasks, jsStrictEqNum t.id 1 = true) →
      ∃ l1 t l2, sampleState.vm.tasks = l1 ++ t :: l2 ∧ jsStrictEqNum t.id 1 = true ∧
        (TaskViewModel.deleteTask 1 sampleState).vm.tasks = l1 ++ l2 ∧
        (TaskViewModel.deleteTask 1 sampleState).vm.tasks.length + 1 =
          sampleState.vm.tasks.length) ∧
    ((∀ t ∈ sampleState.vm.tasks, jsStrictEqNum t.id 1 = false) →
      (TaskViewModel.deleteTask 1 sampleState).vm.tasks = sampleState.vm.tasks)) :=
  ⟨by decide, deleteTask_unique_spec 1 sampleState (by decide)⟩

theorem taskModel_serialize_roundTrip_witness :
    ((-8640000000000000 : Int) ≤ 0) ∧ ((0 : Int) ≤ 8640000000000000) ∧
    (TaskModel.toJSON ⟨some (Json.jnum 1), some (Json.jstr "a"),
        some (Json.jbool false), some 0⟩).bind TaskModel.fromJSON =
      some ⟨some (Json.jnum 1), some (Json.jstr "a"), some (Json.jbool false), some 0⟩ :=
  ⟨by decide, by decide, taskModel_serialize_roundTrip 1 "a" false 0 (by decide) (by decide)⟩

theorem getFilteredTasks_witness :
    (∀ t ∈ sampleState.vm.tasks, ∃ b, t.completed = some (Json.jbool b)) ∧
    ((sampleState.vm.currentFilter = "active" →
      (TaskViewModel.getFilteredTasks sampleState.vm).1 =
        sampleState.vm.tasks.filter (fun t => t.completed = some (Json.jbool false))) ∧
    (sampleState.vm.currentFilter = "completed" →
      (TaskViewModel.getFilteredTasks sampleState.vm).1 =
        sampleState.vm.tasks.filter (fun t => t.completed = some (Json.jbool true))) ∧
    (sampleState.vm.currentFilter ≠ "active" → sampleState.vm.currentFilter ≠ "completed" →
      (TaskViewModel.getFilteredTasks sampleState.vm).1 = sampleState.vm.tasks) ∧
    (TaskViewModel.getFilteredTasks sampleState.vm).2 = sampleState.vm) :=
  ⟨by decide, getFilteredTasks_spec sampleState.vm (by decide)⟩

theorem loadTasks_recovery_witness :
    (some (Blob.parsed (Json.jobj [])) = none ∨
     some (Blob.parsed (Json.jobj [])) = some Blob.emptyStr ∨
     some (Blob.parsed (Json.jobj [])) = some Blob.malformed ∨
     ∃ j, some (Blob.parsed (Json.jobj [])) = some (Blob.parsed j) ∧
       ∀ xs, j ≠ Json.jarr xs) ∧
    (TaskViewModel.init (some (Blob.parsed (Json.jobj [])))).vm.tasks = [] :=
  ⟨Or.inr (Or.inr (Or.inr ⟨Json.jobj [], rfl, fun _xs hx => Json.noConfusion hx⟩)),
   loadTasks_recovery_spec (some (Blob.parsed (Json.jobj [])))
     (Or.inr (Or.inr (Or.inr ⟨Json.jobj [], rfl, fun _xs hx => Json.noConfusion hx⟩)))⟩

theorem tasks_text_invariant_witness :
    ((⟨some (Json.jnum 1), some (Json.jstr "hi"), some (Json.jbool false),
        some 1⟩ : TaskModel) ∈
      (runOps (TaskViewModel.init none) [Op.add "hi" 1 1]).vm.tasks) ∧
    (∃ s, (⟨some (Json.jnum 1), some (Json.jstr "hi"), some (Json.jbool false),
        some 1⟩ : TaskModel).text = some (Json.jstr s) ∧ jsTrim s ≠ "") :=
  ⟨by decide, tasks_text_invariant [Op.add "hi" 1 1] _ (by decide)⟩

theorem toggleTask_found_twice_witness :
    (∀ t ∈ sampleState.vm.tasks, ∃ b, t.completed = some (Json.jbool b)) ∧
    (∃ t ∈ sampleState.vm.tasks, jsStrictEqNum t.id 1 = true) ∧
    ((TaskViewModel.toggleTask 1 sampleState).1 = true ∧
     (TaskViewModel.toggleTask 1 (TaskViewModel.toggleTask 1 sampleState).2).1 = true ∧
     (TaskViewModel.toggleTask 1
       (TaskViewModel.toggleTask 1 sampleState).2).2.vm.tasks = sampleState.vm.tasks) :=
  ⟨by decide, by decide, toggleTask_found_twice 1 sampleState (by decide) (by decide)⟩

theorem getStats_witness :
    (∀ t ∈ sampleState.vm.tasks, ∃ b, t.completed = some (Json.jbool b)) ∧
    ((TaskViewModel.getStats sampleState.vm).total = sampleState.vm.tasks.length ∧
     (TaskViewModel.getStats sampleState.vm).completed =
       (sampleState.vm.tasks.filter
         (fun t => t.completed = some (Json.jbool true))).length ∧
     (TaskViewModel.getStats sampleState.vm).active =
       (sampleState.vm.tasks.filter
         (fun t => t.completed = some (Json.jbool false))).length ∧
     (TaskViewModel.getStats sampleState.vm).total =
       (TaskViewModel.getStats sampleState.vm).completed +
         (TaskViewModel.getStats sampleState.vm).active) :=
  ⟨by decide, getStats_spec sampleState.vm (by decide)⟩

theorem deleteTask_miss_witness :
    (∀ t ∈ sampleState.vm.tasks, jsStrictEqNum t.id 7 = false) ∧
    ((TaskViewModel.deleteTask 7 sampleState).storage = sampleState.storage ∧
     TaskViewModel.deleteTask 7 sampleState = sampleState) :=
  ⟨by decide, deleteTask_miss_spec 7 sampleState (by decide)⟩
